import Mathlib

/-!
Shallow embedding of `src/http_ece.rs` from `rust-web-push`: the HTTP
Encrypted Content Encoding ("aesgcm") encryption core.

Bytes are modelled as `Nat` (with explicit `% 256` where the Rust code
truncates with `as u8`), byte strings as `List Nat`.  The cryptographic
primitives supplied by the `ring` crate (secure RNG, P-256 ECDH agreement,
HKDF extract-and-expand, AES-128-GCM sealing) are external collaborators,
so they are modelled as an explicit environment `CryptoEnv` of oracle
functions; fallible primitives return `Option`.  Type-level facts of the
Rust API are carried by the types of the oracles: `hkdf` fills an output
buffer of exactly the requested length, and `sealInPlace` works on a
`&mut [u8]`, so it cannot change the buffer's length.

Rust panics (out-of-bounds indexing, `usize` underflow) are modelled by an
outer `Option`: `none` means the call panics.  The side effects of
`encrypt` (ephemeral key generation, RNG salt fill, public-key
computation, Diffie-Hellman agreement, key derivation) are recorded in an
event trace so that claims about which effects occur, and in which order,
can be stated.
-/

/-- `ContentCoding` from `src/http_ece.rs` lines 6-9. -/
inductive ContentCoding where
  | AesGcm
  | Aes128Gcm
  deriving DecidableEq, Repr

/-- The variants of `WebPushError` referenced by `src/http_ece.rs`
(`ContentTooLong`, `NotImplemented(&str)`, `Unspecified`); the defining
`error.rs` is outside the given sources, but these constructors and their
payloads are fixed by their uses in `http_ece.rs`. -/
inductive WebPushError where
  | ContentTooLong
  | NotImplemented (msg : String)
  | Unspecified
  deriving DecidableEq, Repr

/-- `WebPushPayload` as used by `src/http_ece.rs` lines 49-53: ciphertext,
ephemeral public key, and salt. -/
structure WebPushPayload where
  content : List Nat
  public_key : List Nat
  salt : List Nat
  deriving DecidableEq, Repr

/-- `HttpEce` from `src/http_ece.rs` lines 11-16.  The `rng` field holds
the system RNG handle; randomness is modelled through `CryptoEnv`
instead, so the field is dropped here. -/
structure HttpEce where
  peer_public_key : List Nat
  peer_secret : List Nat
  coding : ContentCoding

/-- Observable side effects of `encrypt`, in source order:
ephemeral private key generation (line 31), RNG salt fill (line 38),
public-key computation (line 39), ECDH agreement (line 41), and the HKDF
derivations performed inside `aes_gcm` (lines 76-90). -/
inductive Effect where
  | genEphemeralKey
  | fillSalt
  | computePublicKey
  | agree
  | hkdfDerive
  deriving DecidableEq, Repr

/-- The AEAD algorithm selector passed to `ring` (`aead::AES_128_GCM`,
line 92-93). -/
inductive AeadAlg where
  | aes128gcm
  deriving DecidableEq, Repr

/-- An HKDF output buffer of length `n`: `ring`'s `extract_and_expand`
fills the caller's fixed-size array completely. -/
def HkdfOut (n : Nat) : Type := {l : List Nat // l.length = n}

/-- The cryptographic collaborators of the core, as oracle functions.
`none` models a failing primitive (a `ring` `Unspecified` error). -/
structure CryptoEnv where
  /-- `agreement::EphemeralPrivateKey::generate` (line 31): the fresh
  ephemeral private key bytes, or `none` on failure. -/
  ephPrivGen : Option (List Nat)
  /-- `self.rng.fill(&mut salt_bytes)` (line 38): the 16 random salt
  bytes, or `none` on RNG failure. -/
  saltFill : Option (List Nat)
  /-- `private_key.compute_public_key` (line 39). -/
  computePub : List Nat → Option (List Nat)
  /-- `agreement::agree_ephemeral` (line 41): private key and peer public
  key to shared secret; `none` models an invalid peer public key
  (malformed, wrong length, or not a P-256 point). -/
  agree : List Nat → List Nat → Option (List Nat)
  /-- `hkdf::extract_and_expand(key, input, info, out)` (lines 76, 83,
  90): key material, input, info, and requested output length. -/
  hkdf : List Nat → List Nat → List Nat → (n : Nat) → HkdfOut n
  /-- `aead::SealingKey::new` (line 92). -/
  sealKeyNew : AeadAlg → List Nat → Option Unit
  /-- `aead::seal_in_place(key, nonce, ad, in_out, out_suffix_capacity)`
  (line 93): in-place sealing cannot change the buffer's length. -/
  sealInPlace : AeadAlg → List Nat → List Nat → List Nat → (buf : List Nat) → Nat →
      Option {out : List Nat // out.length = buf.length}

/-- `s.as_bytes()` for the ASCII string literals of the source. -/
def strBytes (s : String) : List Nat := s.toList.map Char.toNat

/-- `front_pad` from `src/http_ece.rs` lines 100-111.  `none` models a
panic: `output.len() - 2 - 16` underflows when `output.len() < 18`, and
`max_payload - payload.len()` underflows when the payload is longer than
`max_payload`.  Under the two guards every index written (`0`, `1`, and
`padding_size + i + 2` for `i < payload.len()`) is in bounds, so the
in-bounds `List.set` writes are exact. -/
def front_pad (payload output : List Nat) : Option (List Nat) :=
  let payload_len := payload.length
  if output.length < 18 then none
  else
    let max_payload := output.length - 2 - 16
    if max_payload < payload.length then none
    else
      let padding_size := max_payload - payload.length
      let out1 := (output.set 0 ((padding_size >>> 8) % 256)).set 1 (padding_size &&& 0xff)
      some ((List.range payload_len).foldl
        (fun acc i => acc.set (padding_size + i + 2) (payload.getD i 0)) out1)

/-- `HttpEce::new` from `src/http_ece.rs` lines 19-26: packs the fields
and always returns `Ok`. -/
def HttpEce.new (coding : ContentCoding) (peer_public_key peer_secret : List Nat) :
    Except WebPushError HttpEce :=
  .ok ⟨peer_public_key, peer_secret, coding⟩

/-- The intermediate key material of `HttpEce::aes_gcm`:
`ikm` (line 75-76), `content_encryption_key` (line 82-83), `nonce`
(line 89-90). -/
structure DerivedKeying where
  ikm : List Nat
  content_encryption_key : List Nat
  nonce : List Nat

/-- The `context` buffer of `HttpEce::aes_gcm`, lines 66-73:
`"P-256\0"`, then each public key prefixed by
`push((len >> 8) as u8); push((len & 0xff) as u8)`. -/
def mkContext (peer_public_key as_public_key : List Nat) : List Nat :=
  strBytes "P-256\x00"
    ++ [(peer_public_key.length >>> 8) % 256, peer_public_key.length &&& 0xff]
    ++ peer_public_key
    ++ [(as_public_key.length >>> 8) % 256, as_public_key.length &&& 0xff]
    ++ as_public_key

/-- The three HKDF extract-and-expand steps of `HttpEce::aes_gcm`,
lines 63-90: `ikm` from `auth_secret`/`shared_secret` with info
`"Content-Encoding: auth\0"` (32 bytes), then key and nonce from
`salt`/`ikm` with infos `"Content-Encoding: aesgcm\0" ++ context` (16
bytes) and `"Content-Encoding: nonce\0" ++ context` (12 bytes). -/
def deriveKeys (env : CryptoEnv) (st : HttpEce) (shared_secret as_public_key salt_bytes : List Nat) :
    DerivedKeying :=
  let context := mkContext st.peer_public_key as_public_key
  let ikm := (env.hkdf st.peer_secret shared_secret
    (strBytes "Content-Encoding: auth\x00") 32).val
  let cek_info := strBytes "Content-Encoding: aesgcm\x00" ++ context
  let content_encryption_key := (env.hkdf salt_bytes ikm cek_info 16).val
  let nonce_info := strBytes "Content-Encoding: nonce\x00" ++ context
  let nonce := (env.hkdf salt_bytes ikm nonce_info 12).val
  ⟨ikm, content_encryption_key, nonce⟩

/-- `HttpEce::aes_gcm` from `src/http_ece.rs` lines 61-96: derive the key
material, build the sealing key (`aead::AES_128_GCM`), and seal the
payload in place with empty additional data and a 16-byte tag suffix.
`ring` failures (`?`) become `WebPushError::Unspecified`. -/
def HttpEce.aes_gcm (env : CryptoEnv) (st : HttpEce)
    (shared_secret as_public_key salt_bytes payload : List Nat) :
    Except WebPushError (List Nat) :=
  let k := deriveKeys env st shared_secret as_public_key salt_bytes
  match env.sealKeyNew .aes128gcm k.content_encryption_key with
  | none => .error .Unspecified
  | some _ =>
    match env.sealInPlace .aes128gcm k.content_encryption_key k.nonce (strBytes "") payload 16 with
    | none => .error .Unspecified
    | some out => .ok out.val

/-- The `&str` payload of the `NotImplemented` error, line 56. -/
def notImplementedMsg : String :=
  "Aes128Gcm support comes when enough browsers implement it"

/-- `HttpEce::encrypt` from `src/http_ece.rs` lines 28-59, paired with
its event trace.  Source order: length check (29), ephemeral private key
generation (31), salt fill (38), public-key computation (39), agreement
(41), and only inside the agreement closure the match on the coding
(42-57); the `AesGcm` arm allocates the 3818-byte buffer, front-pads, and
seals.  The outer `Option` models a panic (`none`), which can only come
from `front_pad`. -/
def HttpEce.encrypt (env : CryptoEnv) (st : HttpEce) (content : List Nat) :
    Option (Except WebPushError WebPushPayload × List Effect) :=
  if content.length > 3800 then some (.error .ContentTooLong, [])
  else
    match env.ephPrivGen with
    | none => some (.error .Unspecified, [.genEphemeralKey])
    | some private_key =>
      match env.saltFill with
      | none => some (.error .Unspecified, [.genEphemeralKey, .fillSalt])
      | some salt_bytes =>
        match env.computePub private_key with
        | none => some (.error .Unspecified,
            [.genEphemeralKey, .fillSalt, .computePublicKey])
        | some public_key =>
          match env.agree private_key st.peer_public_key with
          | none => some (.error .Unspecified,
              [.genEphemeralKey, .fillSalt, .computePublicKey, .agree])
          | some shared_secret =>
            match st.coding with
            | .AesGcm =>
              match front_pad content (List.replicate 3818 0) with
              | none => none
              | some payload =>
                match st.aes_gcm env shared_secret public_key salt_bytes payload with
                | .error e => some (.error e,
                    [.genEphemeralKey, .fillSalt, .computePublicKey, .agree, .hkdfDerive])
                | .ok sealed => some (.ok ⟨sealed, public_key, salt_bytes⟩,
                    [.genEphemeralKey, .fillSalt, .computePublicKey, .agree, .hkdfDerive])
            | .Aes128Gcm =>
              some (.error (.NotImplemented notImplementedMsg),
                [.genEphemeralKey, .fillSalt, .computePublicKey, .agree])

/-! ### Concrete instances used by the witnesses -/

/-- An HKDF oracle returning all-zero key material. -/
def hkdfZero : List Nat → List Nat → List Nat → (n : Nat) → HkdfOut n :=
  fun _ _ _ n => ⟨List.replicate n 0, List.length_replicate n 0⟩

/-- A fully succeeding environment whose sealer is the identity. -/
def env0 : CryptoEnv :=
  ⟨some [1], some (List.replicate 16 2), fun _ => some [4], fun _ _ => some [5],
    hkdfZero, fun _ _ => some (), fun _ _ _ _ buf _ => some ⟨buf, rfl⟩⟩

/-- An environment whose agreement step rejects the peer public key. -/
def envBadKey : CryptoEnv :=
  ⟨some [1], some (List.replicate 16 2), fun _ => some [4], fun _ _ => none,
    hkdfZero, fun _ _ => some (), fun _ _ _ _ buf _ => some ⟨buf, rfl⟩⟩

/-- A state requesting the implemented `AesGcm` coding. -/
def st0 : HttpEce := ⟨[9, 9], [8], .AesGcm⟩

/-- A state requesting the unimplemented `Aes128Gcm` coding. -/
def st1 : HttpEce := ⟨[9, 9], [8], .Aes128Gcm⟩

/-- The payload `encrypt env0 st0 []` produces: the framed empty content,
sealed by the identity sealer of `env0`. -/
def payload0 : WebPushPayload :=
  ⟨[3800 / 256, 3800 % 256] ++ List.replicate 3800 0 ++ List.replicate 16 0,
    [4], List.replicate 16 2⟩



/-! ### Helper lemmas about the padding write loop -/

/-- Folding the write `acc.set (off + i) (p.getD i 0)` over `i < p.length`
splices `p` into the base buffer at offset `off`, when it fits. -/
lemma foldl_set_range (p : List Nat) :
    ∀ (base : List Nat) (off : Nat), off + p.length ≤ base.length →
      (List.range p.length).foldl
          (fun acc i => acc.set (off + i) (p.getD i 0)) base
        = base.take off ++ p ++ base.drop (off + p.length) := by
  induction p with
  | nil =>
    intro base off h
    simp
  | cons a tl ih =>
    intro base off h
    simp only [List.length_cons] at h
    have hofflt : off < base.length := by omega
    rw [List.length_cons, List.range_succ_eq_map, List.foldl_cons, List.foldl_map]
    have hstep : (fun (acc : List Nat) (i : Nat) =>
        acc.set (off + i.succ) ((a :: tl).getD i.succ 0))
        = fun (acc : List Nat) (i : Nat) => acc.set (off + 1 + i) (tl.getD i 0) := by
      funext acc i
      have hidx : off + i.succ = off + 1 + i := by omega
      rw [hidx, List.getD_cons_succ]
    have hbase : base.set (off + 0) ((a :: tl).getD 0 0) = base.set off a := by
      simp
    rw [hstep, hbase, ih (base.set off a) (off + 1) (by simp; omega)]
    have hset : base.set off a = base.take off ++ a :: base.drop (off + 1) :=
      List.set_eq_take_cons_drop a hofflt
    have hlt : (base.take off).length = off := by
      simp [List.length_take]
      omega
    rw [hset]
    have htake : (base.take off ++ a :: base.drop (off + 1)).take (off + 1)
        = base.take off ++ [a] := by
      rw [List.take_append_eq_append_take, List.take_of_length_le (by omega), hlt]
      simp
    have hdrop : (base.take off ++ a :: base.drop (off + 1)).drop (off + 1 + tl.length)
        = base.drop (off + (tl.length + 1)) := by
      rw [List.drop_append_eq_append_drop, hlt]
      have h1 : off + 1 + tl.length - off = tl.length + 1 := by omega
      have h2 : (base.take off).drop (off + 1 + tl.length) = [] := by
        apply List.drop_eq_nil_of_le
        omega
      rw [h1, h2, List.drop_succ_cons, List.drop_drop]
      have h3 : off + 1 + tl.length = off + (tl.length + 1) := by omega
      rw [List.nil_append, h3]
    rw [htake, hdrop]
    simp

/-- A fold of in-place writes never changes the buffer's length. -/
lemma foldl_set_length (l : List Nat) (g v : Nat → Nat) :
    ∀ base : List Nat,
      (l.foldl (fun acc i => acc.set (g i) (v i)) base).length = base.length := by
  induction l with
  | nil => intro base; rfl
  | cons a tl ih =>
    intro base
    rw [List.foldl_cons, ih]
    simp

/-- `front_pad` preserves the output buffer's length when it does not
panic. -/
lemma front_pad_length (payload output buf : List Nat)
    (h : front_pad payload output = some buf) : buf.length = output.length := by
  simp only [front_pad] at h
  split at h
  · exact absurd h (by simp)
  · split at h
    · exact absurd h (by simp)
    · have := Option.some.inj h
      rw [← this, foldl_set_length]
      simp

/-- Closed form of `front_pad` on the zeroed 3818-byte buffer allocated by
`encrypt` (line 44): 2-byte big-endian padding length, `padding_size`
zero bytes, the content, and the untouched trailing 16 zero bytes. -/
lemma front_pad_spec (content : List Nat) (h : content.length ≤ 3800) :
    front_pad content (List.replicate 3818 0)
      = some ([(3800 - content.length) / 256, (3800 - content.length) % 256]
          ++ List.replicate (3800 - content.length) 0
          ++ content
          ++ List.replicate 16 0) := by
  have hlen : (List.replicate 3818 (0:Nat)).length = 3818 := List.length_replicate 3818 0
  simp only [front_pad, hlen]
  rw [if_neg (by omega)]
  rw [if_neg (by omega)]
  set n := content.length with hn
  have hmp : 3818 - 2 - 16 = 3800 := by norm_num
  rw [hmp]
  set p := 3800 - n with hp
  have hple : p ≤ 3800 := by omega
  -- the two header bytes
  have hhi : p >>> 8 % 256 = p / 256 := by
    rw [Nat.shiftRight_eq_div_pow]
    have : p / 2 ^ 8 < 256 := by
      have : p / 2 ^ 8 ≤ 3800 / 2 ^ 8 := Nat.div_le_div_right hple
      omega
    rw [Nat.mod_eq_of_lt this]
    norm_num
  have hlo : p &&& 255 = p % 256 := by
    have h255 : (255 : Nat) = 2 ^ 8 - 1 := by norm_num
    rw [h255, Nat.and_pow_two_sub_one_eq_mod]
  -- the buffer after the two header writes
  have hout1 : ((List.replicate 3818 (0:Nat)).set 0 (p >>> 8 % 256)).set 1 (p &&& 255)
      = [p / 256, p % 256] ++ List.replicate 3816 0 := by
    rw [hhi, hlo, show (3818:Nat) = 3817 + 1 from rfl, List.replicate_succ,
      List.set_cons_zero, show (3817:Nat) = 3816 + 1 from rfl, List.replicate_succ,
      List.set_cons_succ, List.set_cons_zero]
    rfl
  rw [hout1]
  -- the write loop splices the content at offset p + 2
  have hfun : (fun (acc : List Nat) (i : Nat) => acc.set (p + i + 2) (content.getD i 0))
      = fun (acc : List Nat) (i : Nat) => acc.set (p + 2 + i) (content.getD i 0) := by
    funext acc i
    congr 1
    omega
  rw [hfun, foldl_set_range content ([p / 256, p % 256] ++ List.replicate 3816 0) (p + 2)
    (by
      simp only [List.length_append, List.length_replicate, List.length_cons, List.length_nil]
      omega)]
  -- compute the take and the drop
  have htake : ([p / 256, p % 256] ++ List.replicate 3816 (0:Nat)).take (p + 2)
      = [p / 256, p % 256] ++ List.replicate p 0 := by
    rw [List.take_append_eq_append_take,
      List.take_of_length_le (by simp only [List.length_cons, List.length_nil]; omega)]
    congr 1
    simp only [List.length_cons, List.length_nil]
    rw [List.take_replicate]
    congr 1
    omega
  have hdrop : ([p / 256, p % 256] ++ List.replicate 3816 (0:Nat)).drop (p + 2 + n)
      = List.replicate 16 0 := by
    rw [List.drop_append_eq_append_drop,
      List.drop_eq_nil_of_le (by simp only [List.length_cons, List.length_nil]; omega),
      List.drop_replicate, List.nil_append]
    simp only [List.length_cons, List.length_nil]
    congr 1
    omega
  rw [htake, hdrop]


/-- A successful `aes_gcm` returns a buffer of the same length as its
input: sealing is in place. -/
lemma aes_gcm_ok_length (env : CryptoEnv) (st : HttpEce)
    (shared_secret as_public_key salt_bytes payload out : List Nat)
    (h : st.aes_gcm env shared_secret as_public_key salt_bytes payload = .ok out) :
    out.length = payload.length := by
  simp only [HttpEce.aes_gcm] at h
  split at h
  · exact absurd h (by simp)
  · split at h
    · exact absurd h (by simp)
    · rename_i o heq
      have hv := Except.ok.inj h
      rw [← hv]
      exact o.property

/-- Symbolic evaluation of `encrypt env0 st0 []`, avoiding any deep
reduction of the 3818-byte buffer. -/
lemma encrypt_env0_st0_nil :
    HttpEce.encrypt env0 st0 []
      = some (.ok payload0,
          [.genEphemeralKey, .fillSalt, .computePublicKey, .agree, .hkdfDerive]) := by
  have hfp := front_pad_spec [] (by simp)
  simp only [List.append_nil] at hfp
  simp only [HttpEce.encrypt, List.length_nil]
  norm_num
  simp only [env0, st0]
  rw [hfp]
  simp only [HttpEce.aes_gcm, payload0]
  norm_num

/-! ### Claim theorems -/

/-- C3: for every plaintext longer than 3800 bytes, `encrypt` returns
`ContentTooLong` with an empty effect trace: no randomness is drawn, no
ephemeral key is generated, and no agreement is performed. -/
theorem encrypt_contentTooLong (env : CryptoEnv) (st : HttpEce) (content : List Nat)
    (h : content.length > 3800) :
    HttpEce.encrypt env st content = some (.error .ContentTooLong, []) := by
  simp only [HttpEce.encrypt, if_pos h]

/-- Witness for C3 at a 3801-byte plaintext. -/
theorem encrypt_contentTooLong_witness :
    (List.replicate 3801 (0:Nat)).length > 3800 ∧
      HttpEce.encrypt env0 st0 (List.replicate 3801 0)
        = some (.error .ContentTooLong, []) := by
  have h : (List.replicate 3801 (0:Nat)).length > 3800 := by
    rw [List.length_replicate]
    omega
  exact ⟨h, encrypt_contentTooLong env0 st0 _ h⟩

/-- C1 counterexample: requesting `Aes128Gcm` does return
`NotImplemented`, but only after the ephemeral key pair, the salt, the
public key, and the Diffie-Hellman agreement have all been produced: the
effect trace of the call is not empty. -/
theorem encrypt_aes128gcm_counterexample :
    HttpEce.encrypt env0 st1 []
        = some (.error (.NotImplemented notImplementedMsg),
            [.genEphemeralKey, .fillSalt, .computePublicKey, .agree]) ∧
      ([Effect.genEphemeralKey, .fillSalt, .computePublicKey, .agree] : List Effect) ≠ [] :=
  ⟨rfl, by decide⟩

/-- C1 (amended): with `Aes128Gcm`, a plaintext within the length bound,
and all primitives succeeding, `encrypt` returns `NotImplemented`; the
ephemeral key generation, salt fill, public-key computation and agreement
all happen first, and no key material is derived (`hkdfDerive` is not in
the trace). -/
theorem encrypt_aes128gcm_notImplemented (env : CryptoEnv) (st : HttpEce)
    (content private_key salt_bytes public_key shared_secret : List Nat)
    (hc : st.coding = .Aes128Gcm)
    (hlen : content.length ≤ 3800)
    (h1 : env.ephPrivGen = some private_key)
    (h2 : env.saltFill = some salt_bytes)
    (h3 : env.computePub private_key = some public_key)
    (h4 : env.agree private_key st.peer_public_key = some shared_secret) :
    HttpEce.encrypt env st content
        = some (.error (.NotImplemented notImplementedMsg),
            [.genEphemeralKey, .fillSalt, .computePublicKey, .agree]) ∧
      Effect.hkdfDerive ∉
        ([Effect.genEphemeralKey, .fillSalt, .computePublicKey, .agree] : List Effect) := by
  constructor
  · have hns : ¬ content.length > 3800 := by omega
    simp only [HttpEce.encrypt, h1, h2, h3, h4, hc]
    rw [if_neg hns]
  · decide

/-- Witness for the amended C1. -/
theorem encrypt_aes128gcm_notImplemented_witness :
    st1.coding = .Aes128Gcm ∧ ([] : List Nat).length ≤ 3800 ∧
      env0.ephPrivGen = some [1] ∧ env0.saltFill = some (List.replicate 16 2) ∧
      env0.computePub [1] = some [4] ∧ env0.agree [1] st1.peer_public_key = some [5] ∧
      (HttpEce.encrypt env0 st1 []
          = some (.error (.NotImplemented notImplementedMsg),
              [.genEphemeralKey, .fillSalt, .computePublicKey, .agree]) ∧
        Effect.hkdfDerive ∉
          ([Effect.genEphemeralKey, .fillSalt, .computePublicKey, .agree] : List Effect)) :=
  ⟨rfl, by decide, rfl, rfl, rfl, rfl,
    encrypt_aes128gcm_notImplemented env0 st1 [] [1] (List.replicate 16 2) [4] [5]
      rfl (by decide) rfl rfl rfl rfl⟩

/-- C10: `HttpEce::new` returns `Ok` for every coding, key and secret;
no validation happens at construction time. -/
theorem new_always_ok (coding : ContentCoding) (peer_public_key peer_secret : List Nat) :
    HttpEce.new coding peer_public_key peer_secret
      = .ok ⟨peer_public_key, peer_secret, coding⟩ := rfl

/-- C2: whenever `encrypt` succeeds, the returned `content` is exactly
3818 bytes long, regardless of the plaintext length. -/
theorem encrypt_success_content_length (env : CryptoEnv) (st : HttpEce)
    (content : List Nat) (payload : WebPushPayload) (tr : List Effect)
    (h : HttpEce.encrypt env st content = some (.ok payload, tr)) :
    payload.content.length = 3818 := by
  simp only [HttpEce.encrypt] at h
  split at h
  · exact absurd h (by simp)
  · split at h
    · exact absurd h (by simp)
    · split at h
      · exact absurd h (by simp)
      · split at h
        · exact absurd h (by simp)
        · split at h
          · exact absurd h (by simp)
          · split at h
            · split at h
              · exact absurd h (by simp)
              · rename_i buf hbuf
                split at h
                · exact absurd h (by simp)
                · rename_i sealed hseal
                  have h' := Option.some.inj h
                  have hpair := congrArg Prod.fst h'
                  have hep := Except.ok.inj hpair
                  rw [← hep]
                  show sealed.length = 3818
                  rw [aes_gcm_ok_length _ _ _ _ _ _ _ hseal,
                    front_pad_length _ _ _ hbuf, List.length_replicate]
            · exact absurd h (by simp)

/-- Witness for C2: a successful call of `encrypt` whose output content
has length 3818. -/
theorem encrypt_success_content_length_witness :
    HttpEce.encrypt env0 st0 []
        = some (.ok payload0,
            [.genEphemeralKey, .fillSalt, .computePublicKey, .agree, .hkdfDerive]) ∧
      payload0.content.length = 3818 :=
  ⟨encrypt_env0_st0_nil,
    encrypt_success_content_length env0 st0 [] payload0
      [.genEphemeralKey, .fillSalt, .computePublicKey, .agree, .hkdfDerive]
      encrypt_env0_st0_nil⟩

/-- C4: for every plaintext of length at most 3800, the framed buffer
built by `front_pad` in the 3818-byte zeroed buffer consists of the
2-byte big-endian padding size `3800 - n`, that many zero bytes, the
content immediately after, and the untouched trailing 16 (zero) tag
bytes; `n = 0` is valid and gives padding size 3800. -/
theorem front_pad_framing (content : List Nat) (h : content.length ≤ 3800) :
    front_pad content (List.replicate 3818 0)
      = some ([(3800 - content.length) / 256, (3800 - content.length) % 256]
          ++ List.replicate (3800 - content.length) 0
          ++ content
          ++ List.replicate 16 0) :=
  front_pad_spec content h

/-- Witness for C4 at the plaintext `b"hello"`: the header decodes to
3795, the padding region is zero, the content follows it. -/
theorem front_pad_framing_witness :
    ([104, 101, 108, 108, 111] : List Nat).length ≤ 3800 ∧
      front_pad [104, 101, 108, 108, 111] (List.replicate 3818 0)
        = some ([14, 211] ++ List.replicate 3795 0
            ++ [104, 101, 108, 108, 111] ++ List.replicate 16 0) := by
  refine ⟨by decide, ?_⟩
  have h := front_pad_framing [104, 101, 108, 108, 111] (by decide)
  have h5 : ([104, 101, 108, 108, 111] : List Nat).length = 5 := rfl
  rw [h5] at h
  have e0 : (3800 - 5 : Nat) = 3795 := by norm_num
  have e1 : (3795 : Nat) / 256 = 14 := by norm_num
  have e2 : (3795 : Nat) % 256 = 211 := by norm_num
  rw [e0, e1, e2] at h
  exact h

/-- C5: the key derivation consists of exactly the three HKDF
extract-and-expand steps, with the byte-exact info strings (embedded NUL
included): `"Content-Encoding: auth\0"` keyed by the auth secret over the
shared secret giving a 32-byte `ikm`, then `"Content-Encoding: aesgcm\0"
++ context` and `"Content-Encoding: nonce\0" ++ context` keyed by the
salt over `ikm` giving the 16-byte key and the 12-byte nonce. -/
theorem deriveKeys_three_hkdf_steps (env : CryptoEnv) (st : HttpEce)
    (shared_secret as_public_key salt_bytes : List Nat) :
    (deriveKeys env st shared_secret as_public_key salt_bytes).ikm
        = (env.hkdf st.peer_secret shared_secret
            [67, 111, 110, 116, 101, 110, 116, 45, 69, 110, 99, 111, 100, 105,
              110, 103, 58, 32, 97, 117, 116, 104, 0] 32).val ∧
      (deriveKeys env st shared_secret as_public_key salt_bytes).content_encryption_key
        = (env.hkdf salt_bytes
            (deriveKeys env st shared_secret as_public_key salt_bytes).ikm
            ([67, 111, 110, 116, 101, 110, 116, 45, 69, 110, 99, 111, 100, 105,
              110, 103, 58, 32, 97, 101, 115, 103, 99, 109, 0]
              ++ mkContext st.peer_public_key as_public_key) 16).val ∧
      (deriveKeys env st shared_secret as_public_key salt_bytes).nonce
        = (env.hkdf salt_bytes
            (deriveKeys env st shared_secret as_public_key salt_bytes).ikm
            ([67, 111, 110, 116, 101, 110, 116, 45, 69, 110, 99, 111, 100, 105,
              110, 103, 58, 32, 110, 111, 110, 99, 101, 0]
              ++ mkContext st.peer_public_key as_public_key) 12).val ∧
      (deriveKeys env st shared_secret as_public_key salt_bytes).ikm.length = 32 ∧
      (deriveKeys env st shared_secret as_public_key salt_bytes).content_encryption_key.length = 16 ∧
      (deriveKeys env st shared_secret as_public_key salt_bytes).nonce.length = 12 := by
  have hauth : strBytes "Content-Encoding: auth\x00"
      = [67, 111, 110, 116, 101, 110, 116, 45, 69, 110, 99, 111, 100, 105,
          110, 103, 58, 32, 97, 117, 116, 104, 0] := by decide
  have haes : strBytes "Content-Encoding: aesgcm\x00"
      = [67, 111, 110, 116, 101, 110, 116, 45, 69, 110, 99, 111, 100, 105,
          110, 103, 58, 32, 97, 101, 115, 103, 99, 109, 0] := by decide
  have hnonce : strBytes "Content-Encoding: nonce\x00"
      = [67, 111, 110, 116, 101, 110, 116, 45, 69, 110, 99, 111, 100, 105,
          110, 103, 58, 32, 110, 111, 110, 99, 101, 0] := by decide
  refine ⟨?_, ?_, ?_, ?_, ?_, ?_⟩ <;>
    simp only [deriveKeys, hauth, haes, hnonce]
  · exact (env.hkdf _ _ _ 32).property
  · exact (env.hkdf _ _ _ 16).property
  · exact (env.hkdf _ _ _ 12).property

/-- C6: the shared context buffer is `"P-256\0"`, then the 2-byte
big-endian length of the recipient public key, the key itself, the
2-byte big-endian length of the ephemeral public key, and that key
(lengths below 2^16, as for any valid P-256 public key encoding). -/
theorem mkContext_layout (peer_public_key as_public_key : List Nat)
    (h1 : peer_public_key.length < 65536) (h2 : as_public_key.length < 65536) :
    mkContext peer_public_key as_public_key
      = [80, 45, 50, 53, 54, 0]
        ++ [peer_public_key.length / 256, peer_public_key.length % 256]
        ++ peer_public_key
        ++ [as_public_key.length / 256, as_public_key.length % 256]
        ++ as_public_key := by
  have hs : strBytes "P-256\x00" = [80, 45, 50, 53, 54, 0] := by decide
  have hhi : ∀ n : Nat, n < 65536 → (n >>> 8) % 256 = n / 256 := by
    intro n hn
    rw [Nat.shiftRight_eq_div_pow]
    have hb : n / 2 ^ 8 < 256 := Nat.div_lt_of_lt_mul (by norm_num; omega)
    rw [Nat.mod_eq_of_lt hb]
    norm_num
  have hlo : ∀ n : Nat, n &&& 255 = n % 256 := by
    intro n
    have h255 : (255 : Nat) = 2 ^ 8 - 1 := by norm_num
    rw [h255, Nat.and_pow_two_sub_one_eq_mod]
  simp only [mkContext, hs, hhi _ h1, hhi _ h2, hlo]

/-- Witness for C6 with a 2-byte recipient key and a 1-byte ephemeral
key. -/
theorem mkContext_layout_witness :
    ([1, 2] : List Nat).length < 65536 ∧ ([3] : List Nat).length < 65536 ∧
      mkContext [1, 2] [3] = [80, 45, 50, 53, 54, 0, 0, 2, 1, 2, 0, 1, 3] := by
  refine ⟨by decide, by decide, ?_⟩
  have h := mkContext_layout [1, 2] [3] (by decide) (by decide)
  norm_num at h
  exact h


/-- C7: a successful `aes_gcm` sealed the buffer in place via
`AES_128_GCM` with the derived 16-byte key and 12-byte nonce, empty
additional authenticated data and a 16-byte tag suffix; the output is the
sealer's in-place result and its length equals the input buffer's. -/
theorem aes_gcm_seal_contract (env : CryptoEnv) (st : HttpEce)
    (shared_secret as_public_key salt_bytes payload out : List Nat)
    (h : st.aes_gcm env shared_secret as_public_key salt_bytes payload = .ok out) :
    (deriveKeys env st shared_secret as_public_key salt_bytes).content_encryption_key.length
        = 16 ∧
      (deriveKeys env st shared_secret as_public_key salt_bytes).nonce.length = 12 ∧
      (env.sealInPlace .aes128gcm
          (deriveKeys env st shared_secret as_public_key salt_bytes).content_encryption_key
          (deriveKeys env st shared_secret as_public_key salt_bytes).nonce
          [] payload 16).map Subtype.val = some out ∧
      out.length = payload.length := by
  have hempty : strBytes "" = [] := rfl
  refine ⟨?_, ?_, ?_, aes_gcm_ok_length env st _ _ _ _ _ h⟩
  · simp only [deriveKeys]
    exact (env.hkdf _ _ _ 16).property
  · simp only [deriveKeys]
    exact (env.hkdf _ _ _ 12).property
  · simp only [HttpEce.aes_gcm] at h
    rw [hempty] at h
    split at h
    · exact absurd h (by simp)
    · split at h
      · exact absurd h (by simp)
      · rename_i o heq
        rw [heq]
        exact congrArg some (Except.ok.inj h)

/-- Witness for C7 on a 3-byte buffer with the identity sealer. -/
theorem aes_gcm_seal_contract_witness :
    HttpEce.aes_gcm env0 st0 [5] [4] (List.replicate 16 2) [7, 7, 7] = .ok [7, 7, 7] ∧
      ((deriveKeys env0 st0 [5] [4] (List.replicate 16 2)).content_encryption_key.length
          = 16 ∧
        (deriveKeys env0 st0 [5] [4] (List.replicate 16 2)).nonce.length = 12 ∧
        (env0.sealInPlace .aes128gcm
            (deriveKeys env0 st0 [5] [4] (List.replicate 16 2)).content_encryption_key
            (deriveKeys env0 st0 [5] [4] (List.replicate 16 2)).nonce
            [] [7, 7, 7] 16).map Subtype.val = some [7, 7, 7] ∧
        ([7, 7, 7] : List Nat).length = ([7, 7, 7] : List Nat).length) :=
  ⟨rfl, aes_gcm_seal_contract env0 st0 [5] [4] (List.replicate 16 2) [7, 7, 7] [7, 7, 7] rfl⟩

/-- C8: an invalid recipient public key (the agreement primitive rejects
it) makes `encrypt` return the opaque `Unspecified` error as a value: no
panic (the result is `some`) and no partially built payload (the result
is an `error`). -/
theorem encrypt_invalid_peer_key (env : CryptoEnv) (st : HttpEce)
    (content private_key salt_bytes public_key : List Nat)
    (hlen : content.length ≤ 3800)
    (h1 : env.ephPrivGen = some private_key)
    (h2 : env.saltFill = some salt_bytes)
    (h3 : env.computePub private_key = some public_key)
    (h4 : env.agree private_key st.peer_public_key = none) :
    HttpEce.encrypt env st content
      = some (.error .Unspecified,
          [.genEphemeralKey, .fillSalt, .computePublicKey, .agree]) := by
  have hns : ¬ content.length > 3800 := by omega
  simp only [HttpEce.encrypt, h1, h2, h3, h4]
  rw [if_neg hns]

/-- Witness for C8 with an environment whose agreement step rejects the
peer key. -/
theorem encrypt_invalid_peer_key_witness :
    ([1] : List Nat).length ≤ 3800 ∧
      envBadKey.ephPrivGen = some [1] ∧
      envBadKey.saltFill = some (List.replicate 16 2) ∧
      envBadKey.computePub [1] = some [4] ∧
      envBadKey.agree [1] st0.peer_public_key = none ∧
      HttpEce.encrypt envBadKey st0 [1]
        = some (.error .Unspecified,
            [.genEphemeralKey, .fillSalt, .computePublicKey, .agree]) :=
  ⟨by decide, rfl, rfl, rfl, rfl,
    encrypt_invalid_peer_key envBadKey st0 [1] [1] (List.replicate 16 2) [4]
      (by decide) rfl rfl rfl rfl⟩

/-- C9: when the payload fits (`payload.len() + 18 ≤ output.len()`, which
`encrypt` guarantees by rejecting plaintexts over 3800 bytes before
allocating the 3818-byte buffer), the subtraction in `front_pad` cannot
underflow, every written index (0, 1, and `padding_size + i + 2` for
`i < payload.len()`) is in bounds, and `front_pad` does not panic. -/
theorem front_pad_no_panic (payload output : List Nat)
    (h : payload.length + 18 ≤ output.length) :
    payload.length ≤ output.length - 2 - 16 ∧
      2 ≤ output.length ∧
      (∀ i, i < payload.length →
        (output.length - 2 - 16 - payload.length) + i + 2 < output.length) ∧
      (front_pad payload output).isSome := by
  refine ⟨by omega, by omega, fun i hi => by omega, ?_⟩
  simp only [front_pad]
  rw [if_neg (by omega), if_neg (by omega)]
  simp

/-- Witness for C9 on a 3-byte payload and a 21-byte buffer. -/
theorem front_pad_no_panic_witness :
    ([1, 2, 3] : List Nat).length + 18 ≤ (List.replicate 21 (0:Nat)).length ∧
      (([1, 2, 3] : List Nat).length ≤ (List.replicate 21 (0:Nat)).length - 2 - 16 ∧
        2 ≤ (List.replicate 21 (0:Nat)).length ∧
        (∀ i, i < ([1, 2, 3] : List Nat).length →
          ((List.replicate 21 (0:Nat)).length - 2 - 16 - ([1, 2, 3] : List Nat).length)
              + i + 2 < (List.replicate 21 (0:Nat)).length) ∧
        (front_pad [1, 2, 3] (List.replicate 21 0)).isSome) :=
  ⟨by decide, front_pad_no_panic [1, 2, 3] (List.replicate 21 0) (by decide)⟩
